import Mathlib

/-!
# Verification of the AVIN personal-ledger financial consistency engine

Shallow embedding of the repository's transaction ledger and investment
cost-basis engine, together with proofs about the spec's claims.

Monetary quantities are embedded as rationals (the source uses JS numbers;
all claims are about exact bookkeeping identities).  The data model follows
the source's field usage; the type declarations themselves live outside the
provided sources, so their shape is taken from the spec's data model (§3)
and from how each operation reads and writes the fields.
-/

namespace Avin

/-- Transaction kinds, spec §3 and the string literals of the source. -/
inductive TransactionType where
  | income
  | expense
  | sale
  | purchase
deriving DecidableEq, Repr

/-- Trade kinds (`'buy' | 'sell'` in the source). -/
inductive TradeType where
  | buy
  | sell
deriving DecidableEq, Repr

/-- A ledger transaction.  Field shape from spec §3 / source usage
(`id`, `type`, `date`, `description`, `category`, `amount`, `account`,
 optional `partyId`, `notes`). -/
structure Transaction where
  id : String
  ttype : TransactionType
  date : String
  description : String
  category : String
  amount : ℚ
  account : String
  partyId : Option String
  notes : String
deriving DecidableEq, Repr

/-- A cash account.  Field shape from spec §3 / source usage. -/
structure Account where
  id : String
  name : String
  balance : ℚ
  openingBalance : ℚ
deriving DecidableEq, Repr

/-- A counterparty.  Field shape from spec §3 / source usage. -/
structure Party where
  id : String
  name : String
  currentBalance : ℚ
deriving DecidableEq, Repr

/-- One entry of an asset's trade history (`InvestmentTrade` in the source). -/
structure InvestmentTrade where
  id : String
  date : String
  ttype : TradeType
  qty : ℚ
  price : ℚ
  charges : ℚ
deriving DecidableEq, Repr

/-- An investable asset (`Investment` in the source). -/
structure Investment where
  id : String
  name : String
  assetType : String
  qty : ℚ
  avgBuyPrice : ℚ
  currPrice : ℚ
  history : List InvestmentTrade
  status : String
  totalRealizedPL : ℚ
deriving DecidableEq, Repr

/-- Task record (only the fields the assistant dispatcher touches). -/
structure Task where
  id : String
  content : String
  dueDate : String
  priority : String
  completed : Bool
deriving DecidableEq, Repr

/-- Journal entry record (only the fields the assistant dispatcher touches). -/
structure JournalEntry where
  id : String
  date : String
  title : String
  content : String
deriving DecidableEq, Repr

/-- Goal record (only the fields the assistant dispatcher touches). -/
structure Goal where
  id : String
  name : String
deriving DecidableEq, Repr

/-- The application state aggregate (`AppData` in the source), restricted to
the collections the financial engine reads or writes. -/
structure AppData where
  transactions : List Transaction
  accounts : List Account
  parties : List Party
  investments : List Investment
  tasks : List Task
  journal : List JournalEntry
  goals : List Goal
deriving DecidableEq, Repr

/-- Update the first element satisfying `p` (models the JS idiom of
`array.find(...)` followed by mutation of the found object). -/
def updateFirst (p : α → Bool) (f : α → α) : List α → List α
  | [] => []
  | a :: l => if p a then f a :: l else a :: updateFirst p f l

/-- Character-list version of `startsWith`. -/
def startsWithL [DecidableEq α] : List α → List α → Bool
  | [], _ => true
  | _ :: _, [] => false
  | a :: as, b :: bs => a = b && startsWithL as bs

/-- Does `needle` occur as a contiguous block of `hay`? -/
def hasInfixL [DecidableEq α] (needle : List α) : List α → Bool
  | [] => needle.isEmpty
  | b :: t => startsWithL needle (b :: t) || hasInfixL needle t

/-- `haystack.includes(needle)` on JS strings. -/
def strIncludes (hay needle : String) : Bool :=
  hasInfixL needle.toList hay.toList

/-- Lexicographic comparison of character lists; models the ascending
`a.localeCompare(b)` comparator on the ISO date strings of the source. -/
def lexLe : List Char → List Char → Bool
  | [], _ => true
  | _ :: _, [] => false
  | a :: as, b :: bs => if a = b then lexLe as bs else decide (a.toNat < b.toNat)

/-- `s.toLowerCase()` on JS strings (character-wise lowering). -/
def toLowerStr (s : String) : String := String.mk (s.toList.map Char.toLower)

/-! ## TransactionLedger (part_004, `LedgerPage`) -/

/-- Signed cash delta of a transaction on its account
(part_004 `handleSave` / `deleteTransaction`): `+amount` for
income and sale, `-amount` otherwise. -/
def signedDelta (t : Transaction) : ℚ :=
  if t.ttype = .income ∨ t.ttype = .sale then t.amount else -t.amount

/-- Signed delta of a transaction on its party's `currentBalance`
(part_004 `handleSave`, lines 73-79): sale `+`, purchase `-`,
income `-`, expense `+`. -/
def partySignedDelta (t : Transaction) : ℚ :=
  match t.ttype with
  | .sale => t.amount
  | .purchase => -t.amount
  | .income => -t.amount
  | .expense => t.amount

/-- part_004 `handleSave`: validate, reverse the old record when editing,
then apply the new record's impact.  `editing.id = ""` is the record path
(the source generates a fresh `Date.now()` id, passed here as `freshId`);
a non-empty `editing.id` is the amend path. -/
def handleSave (s : AppData) (editing : Transaction) (freshId : String) : AppData :=
  if editing.description = "" ∨ editing.amount = 0 ∨ editing.date = "" then s
  else
    let trans : Transaction :=
      { editing with id := if editing.id = "" then freshId else editing.id }
    let reverted : List Transaction × List Account × List Party :=
      if editing.id ≠ "" then
        (s.transactions.find? (fun t => t.id == editing.id)).elim
          (s.transactions, s.accounts, s.parties)
          (fun old =>
            (s.transactions.filter (fun t => ¬ t.id == editing.id),
             updateFirst (fun a => a.id == old.account)
               (fun a => { a with balance := a.balance - signedDelta old }) s.accounts,
             updateFirst (fun p => some p.id == old.partyId)
               (fun p => { p with currentBalance := p.currentBalance - partySignedDelta old })
               s.parties))
      else (s.transactions, s.accounts, s.parties)
    let accounts' := updateFirst (fun a => a.id == trans.account)
      (fun a => { a with balance := a.balance + signedDelta trans }) reverted.2.1
    let parties' := updateFirst (fun p => some p.id == trans.partyId)
      (fun p => { p with currentBalance := p.currentBalance + partySignedDelta trans })
      reverted.2.2
    { s with transactions := trans :: reverted.1, accounts := accounts', parties := parties' }

/-- part_004 `deleteTransaction`: reverse the record's account and party
impact, then remove it from the history. -/
def deleteTransaction (s : AppData) (id : String) : AppData :=
  (s.transactions.find? (fun t => t.id == id)).elim s (fun tr =>
    let accounts := s.accounts.map (fun a =>
      if a.id == tr.account then
        { a with balance := a.balance +
            (if tr.ttype = .income ∨ tr.ttype = .sale then -tr.amount
             else tr.amount) }
      else a)
    let parties := s.parties.map (fun p =>
      if some p.id == tr.partyId then
        { p with currentBalance := p.currentBalance +
            (if tr.ttype = .sale then -tr.amount
             else if tr.ttype = .purchase then tr.amount
             else if tr.ttype = .income then tr.amount
             else -tr.amount) }
      else p)
    { s with transactions := s.transactions.filter (fun t => ¬ t.id == id),
             accounts := accounts, parties := parties })

/-! ## Voice-assistant dispatcher (part_006, `handleFunctionCall`) -/

/-- part_006 `recordTransaction` branch: apply the signed delta to the
matching account and prepend the transaction.  The dispatcher builds the
transaction itself (fresh `Date.now()` id, no party); we take the built
transaction as input. -/
def mayaRecordTransaction (s : AppData) (t : Transaction) : AppData :=
  let accounts := s.accounts.map (fun a =>
    if a.id == t.account then
      { a with balance := a.balance +
          (if t.ttype = .income ∨ t.ttype = .sale then t.amount else -t.amount) }
    else a)
  { s with accounts := accounts, transactions := t :: s.transactions }

/-- part_006 `deleteEntry` branch: filter the named collection by a
lower-cased substring match; save only when something was removed.
No balance reversal happens on any of these paths. -/
def mayaDeleteEntry (s : AppData) (ty searchPart : String) : AppData :=
  let term := toLowerStr searchPart
  if ty = "transaction" then
    let txs := s.transactions.filter (fun t => ¬ strIncludes (toLowerStr t.description) term)
    if txs.length < s.transactions.length then { s with transactions := txs } else s
  else if ty = "task" then
    let tks := s.tasks.filter (fun t => ¬ strIncludes (toLowerStr t.content) term)
    if tks.length < s.tasks.length then { s with tasks := tks } else s
  else if ty = "journal" then
    let js := s.journal.filter (fun j => ¬ strIncludes (toLowerStr j.title) term)
    if js.length < s.journal.length then { s with journal := js } else s
  else if ty = "goal" then
    let gs := s.goals.filter (fun g => ¬ strIncludes (toLowerStr g.name) term)
    if gs.length < s.goals.length then { s with goals := gs } else s
  else s

/-! ## InvestmentCostBasisEngine: replay-based engine (part_001) -/

/-- The command record built by the part_001 trade modal
(`tradeData`): `id` non-empty means amendment of that history entry,
`assetId` selects an existing asset, otherwise `newName` creates one. -/
structure TradeCmd where
  id : String
  assetId : String
  newName : String
  newType : String
  ttype : TradeType
  qty : ℚ
  price : ℚ
  charges : ℚ
  date : String
  accountId : String
deriving DecidableEq, Repr

/-- Running state of the part_001 replay loop:
`calcQty`, `totalCostBasis`, `totalRealizedPL`. -/
structure ReplayState where
  q : ℚ
  cb : ℚ
  pl : ℚ
deriving DecidableEq, Repr

/-- One iteration of the part_001 replay loop (lines 124-136). -/
def replayStep (st : ReplayState) (h : InvestmentTrade) : ReplayState :=
  if h.ttype = .buy then
    { st with q := st.q + h.qty, cb := st.cb + (h.qty * h.price + h.charges) }
  else
    let currentAvg := if 0 < st.q then st.cb / st.q else 0
    { q := st.q - h.qty,
      cb := st.cb - currentAvg * h.qty,
      pl := st.pl + ((h.price - currentAvg) * h.qty - h.charges) }

/-- Folding the replay loop over a trade list. -/
def replayFold (st : ReplayState) (l : List InvestmentTrade) : ReplayState :=
  l.foldl replayStep st

/-- Date order on trades, as used by the replay sort comparator. -/
def tradeDateLe (a b : InvestmentTrade) : Prop :=
  lexLe a.date.toList b.date.toList = true

instance : DecidableRel tradeDateLe :=
  fun a b => inferInstanceAs (Decidable (lexLe a.date.toList b.date.toList = true))

/-- The stable date-ascending sort applied before the replay loop
(`history.sort((a,b) => a.date.localeCompare(b.date))`). -/
def sortTrades (l : List InvestmentTrade) : List InvestmentTrade :=
  l.insertionSort tradeDateLe

/-- part_001 lines 119-145: derive `qty`, `avgBuyPrice`, `totalRealizedPL`
and `status` of an asset by replaying its full (date-sorted) history. -/
def deriveAsset (base : Investment) (history : List InvestmentTrade) : Investment :=
  let sorted := sortTrades history
  let r := replayFold ⟨0, 0, 0⟩ sorted
  { base with
      qty := max 0 r.q,
      avgBuyPrice := if 0 < r.q then r.cb / r.q else 0,
      history := sorted,
      totalRealizedPL := r.pl,
      status := if 0 < r.q then "active" else "closed" }

/-- Printable form of a trade kind. -/
def tradeTypeStr : TradeType → String
  | .buy => "BUY"
  | .sell => "SELL"

/-- part_001 `executeTrade` (lines 84-165): resolve or create the target
asset, validate `qty`/`price`, amend the history when `id` is set, replay,
and write the linked ledger transaction and the settlement-account delta.
`none` models the early `showToast` returns (no state change). -/
def executeTradeReplay (data : AppData) (td : TradeCmd) (ts : String) : Option AppData :=
  let targetAsset? : Option Investment :=
    if td.assetId ≠ "" then data.investments.find? (fun i => i.id == td.assetId)
    else if td.newName ≠ "" then
      some { id := ts, name := td.newName, assetType := td.newType, qty := 0,
             avgBuyPrice := 0, currPrice := td.price, history := [],
             status := "active", totalRealizedPL := 0 }
    else none
  targetAsset?.bind (fun targetAsset =>
    if td.qty ≤ 0 ∨ td.price ≤ 0 then none
    else
      let tradeValue := td.qty * td.price
      let netImpact := if td.ttype = .buy then tradeValue + td.charges
                       else tradeValue - td.charges
      let ledgerTrans : Transaction :=
        { id := if td.id ≠ "" then "trade-" ++ td.id else "trade-" ++ ts,
          ttype := if td.ttype = .buy then .expense else .income,
          date := td.date,
          description := tradeTypeStr td.ttype ++ " " ++ targetAsset.name ++
            " (" ++ toString td.qty ++ " Units)",
          category := "Asset Reconciliation",
          amount := |netImpact|,
          account := td.accountId,
          partyId := none,
          notes := "Trade ID: " ++ (if td.id ≠ "" then td.id else ts) ++
            " | Node: " ++ targetAsset.name }
      let tradeRecord : InvestmentTrade :=
        { id := if td.id ≠ "" then td.id else "tr-" ++ ts,
          date := td.date, ttype := td.ttype, qty := td.qty,
          price := td.price, charges := td.charges }
      let history0 := if td.id ≠ "" then
          targetAsset.history.filter (fun h => ¬ h.id == td.id)
        else targetAsset.history
      let history := history0 ++ [tradeRecord]
      let finalAsset := deriveAsset targetAsset history
      let investments :=
        if data.investments.any (fun i => i.id == targetAsset.id) then
          updateFirst (fun i => i.id == targetAsset.id) (fun _ => finalAsset)
            data.investments
        else data.investments ++ [finalAsset]
      let accounts := data.accounts.map (fun acc =>
        if acc.id == td.accountId then
          { acc with balance := acc.balance +
              (if td.ttype = .buy then -netImpact else netImpact) }
        else acc)
      some { data with
               investments := investments,
               accounts := accounts,
               transactions :=
                 ledgerTrans :: data.transactions.filter
                   (fun t => ¬ t.id == ledgerTrans.id) })

/-! ## InvestmentCostBasisEngine: incremental engine (PortfolioPage.tsx) -/

/-- The trade form data of `PortfolioPage.tsx` (no amendment id there). -/
structure TsxTradeData where
  ttype : TradeType
  qty : ℚ
  price : ℚ
  charges : ℚ
  date : String
  accountId : String
deriving DecidableEq, Repr

/-- `PortfolioPage.tsx` `executeTrade` (lines 86-168): validates
`qty`/`price`, rejects a sell exceeding the held quantity, then updates the
matching asset *incrementally* (running average for buys; realized P/L and
quantity for sells, with `avgBuyPrice` and `status` untouched by sells). -/
def executeTradeIncr (data : AppData) (tradingAsset : Investment)
    (td : TsxTradeData) (ts : String) : Option AppData :=
  if td.qty ≤ 0 ∨ td.price ≤ 0 then none
  else if td.ttype = .sell ∧ tradingAsset.qty < td.qty then none
  else
    let tradeValue := td.qty * td.price
    let tradeTotalImpact := if td.ttype = .buy then tradeValue + td.charges
                            else tradeValue - td.charges
    let ledgerTrans : Transaction :=
      { id := "trade-" ++ ts,
        ttype := if td.ttype = .buy then .expense else .income,
        date := td.date,
        description := tradeTypeStr td.ttype ++ " " ++ tradingAsset.name ++
          " (" ++ toString td.qty ++ " units)",
        category := "Investment Trade",
        amount := |tradeTotalImpact|,
        account := td.accountId,
        partyId := none,
        notes := "Asset: " ++ tradingAsset.name }
    let investments := data.investments.map (fun inv =>
      if inv.id == tradingAsset.id then
        let tradeRecord : InvestmentTrade :=
          { id := "tr-" ++ ts, date := td.date, ttype := td.ttype,
            qty := td.qty, price := td.price, charges := td.charges }
        let history := inv.history ++ [tradeRecord]
        if td.ttype = .buy then
          let currentTotalCost := inv.qty * inv.avgBuyPrice
          let newTradeCost := td.qty * td.price + td.charges
          let newQty := inv.qty + td.qty
          { inv with qty := newQty,
                     avgBuyPrice := (currentTotalCost + newTradeCost) / newQty,
                     history := history,
                     currPrice := td.price }
        else
          { inv with qty := inv.qty - td.qty,
                     history := history,
                     totalRealizedPL := inv.totalRealizedPL +
                       ((td.price - inv.avgBuyPrice) * td.qty - td.charges),
                     currPrice := td.price }
      else inv)
    let accounts := data.accounts.map (fun acc =>
      if acc.id == td.accountId then
        { acc with balance :=
            if td.ttype = .buy then acc.balance - tradeTotalImpact
            else acc.balance + tradeTotalImpact }
      else acc)
    some { data with
             investments := investments,
             accounts := accounts,
             transactions := ledgerTrans :: data.transactions }

/-- `PortfolioPage.tsx` / part_002 `handleUpdateMktPrice`: set the mark
price of the matching asset. -/
def handleUpdateMktPrice (s : AppData) (assetId : String) (newPrice : ℚ) : AppData :=
  { s with investments := s.investments.map (fun inv =>
      if inv.id == assetId then { inv with currPrice := newPrice } else inv) }

/-- Display-time unrealized P/L (part_001 line 235, PortfolioPage.tsx):
`(currPrice - avgBuyPrice) * qty`; never a stored field. -/
def currentUnrealizedPL (inv : Investment) : ℚ :=
  (inv.currPrice - inv.avgBuyPrice) * inv.qty


/-! ## Analysis definitions and concrete fixtures -/

/-! Shared concrete fixtures. -/

/-- A settlement account with zero opening balance. -/
def baseAccount : Account := { id := "acc1", name := "Main", balance := 0, openingBalance := 0 }

/-- An asset with empty trade history. -/
def baseAsset : Investment :=
  { id := "gold", name := "GOLD", assetType := "Stock", qty := 0, avgBuyPrice := 0,
    currPrice := 0, history := [], status := "active", totalRealizedPL := 0 }

/-- Minimal state: one empty account, one fresh asset. -/
def baseState : AppData :=
  { transactions := [], accounts := [baseAccount], parties := [],
    investments := [baseAsset], tasks := [], journal := [], goals := [] }

def c1Buy : TradeCmd :=
  { id := "", assetId := "gold", newName := "", newType := "Stock", ttype := .buy,
    qty := 10, price := 100, charges := 10, date := "2024-01-01", accountId := "acc1" }

def c1Sell : TradeCmd :=
  { id := "", assetId := "gold", newName := "", newType := "Stock", ttype := .sell,
    qty := 4, price := 150, charges := 5, date := "2024-01-02", accountId := "acc1" }

def c5Cmd : TradeCmd :=
  { id := "t1", assetId := "gold", newName := "", newType := "Stock", ttype := .buy,
    qty := 10, price := 100, charges := 10, date := "2024-01-01", accountId := "acc1" }

/-- Signed quantity contribution of one trade to the running quantity. -/
def signedQty (t : InvestmentTrade) : ℚ :=
  if t.ttype = .buy then t.qty else -t.qty

/-- Net (signed) quantity of a trade history. -/
def netQty (l : List InvestmentTrade) : ℚ := (l.map signedQty).sum

def c3Asset : Investment :=
  { id := "gold", name := "GOLD", assetType := "Stock", qty := 1, avgBuyPrice := 101,
    currPrice := 100, history := [], status := "active", totalRealizedPL := 0 }

def c3State : AppData :=
  { transactions := [], accounts := [baseAccount], parties := [],
    investments := [c3Asset], tasks := [], journal := [], goals := [] }

def c3Sell : TsxTradeData :=
  { ttype := .sell, qty := 1, price := 150, charges := 0,
    date := "2024-02-01", accountId := "acc1" }

def c4Sell : TradeCmd :=
  { id := "", assetId := "gold", newName := "", newType := "Stock", ttype := .sell,
    qty := 5, price := 10, charges := 0, date := "2024-03-01", accountId := "acc1" }

def c8t1 : InvestmentTrade :=
  { id := "h1", date := "2024-01-01", ttype := .buy, qty := 1, price := 100, charges := 0 }

def c8t1' : InvestmentTrade :=
  { id := "h1", date := "2024-01-01", ttype := .buy, qty := 1, price := 200, charges := 0 }

def c8t2 : InvestmentTrade :=
  { id := "h2", date := "2024-01-02", ttype := .sell, qty := 2, price := 10, charges := 0 }

def c8t3 : InvestmentTrade :=
  { id := "h3", date := "2024-01-03", ttype := .buy, qty := 3, price := 5, charges := 0 }

def c8t4 : InvestmentTrade :=
  { id := "h4", date := "2024-01-04", ttype := .sell, qty := 4, price := 10, charges := 0 }

/-! ## The ledger invariant (C2) -/

/-- One ledger-mutating operation: part_004 `handleSave` (record or amend),
part_004 `deleteTransaction`, or the dispatcher's `recordTransaction`. -/
inductive LedgerOp where
  | save (editing : Transaction) (freshId : String)
  | delete (id : String)
  | mayaRecord (t : Transaction)
deriving DecidableEq, Repr

/-- Run one ledger operation against the state. -/
def applyOp (s : AppData) : LedgerOp → AppData
  | .save e fid => handleSave s e fid
  | .delete id => deleteTransaction s id
  | .mayaRecord t => mayaRecordTransaction s t

/-- Sum of the signed deltas of the transactions referencing an account. -/
def accountSum (accId : String) (txs : List Transaction) : ℚ :=
  ((txs.filter (fun t => t.account == accId)).map signedDelta).sum

/-- Every account balance is its opening balance plus the signed sum of the
live transactions referencing it. -/
def balancesOk (accounts : List Account) (txs : List Transaction) : Prop :=
  ∀ a ∈ accounts, a.balance = a.openingBalance + accountSum a.id txs

/-- The spec's global invariant, together with the id-uniqueness the storage
keyed by id provides. -/
def LedgerInvariant (s : AppData) : Prop :=
  balancesOk s.accounts s.transactions
  ∧ (s.transactions.map (fun t => t.id)).Nodup
  ∧ (s.accounts.map (fun a => a.id)).Nodup

instance (accounts : List Account) (txs : List Transaction) :
    Decidable (balancesOk accounts txs) :=
  inferInstanceAs (Decidable (∀ a ∈ accounts, a.balance = a.openingBalance + accountSum a.id txs))

instance (s : AppData) : Decidable (LedgerInvariant s) :=
  inferInstanceAs (Decidable (_ ∧ _ ∧ _))

/-- Freshness of generated ids (`Date.now()` in the source) at the moment an
operation runs. -/
def OpFresh (s : AppData) : LedgerOp → Prop
  | .save e fid => e.id = "" → ∀ t ∈ s.transactions, t.id ≠ fid
  | .delete _ => True
  | .mayaRecord t => ∀ t' ∈ s.transactions, t'.id ≠ t.id

instance instDecidableOpFresh : (op : LedgerOp) → (s : AppData) → Decidable (OpFresh s op)
  | .save e fid, s =>
      inferInstanceAs (Decidable (e.id = "" → ∀ t ∈ s.transactions, t.id ≠ fid))
  | .delete _, _ => isTrue trivial
  | .mayaRecord t, s =>
      inferInstanceAs (Decidable (∀ t' ∈ s.transactions, t'.id ≠ t.id))

/-- Freshness of every operation of a run, at its point of execution. -/
def FreshOps : AppData → List LedgerOp → Prop
  | _, [] => True
  | s, op :: ops => OpFresh s op ∧ FreshOps (applyOp s op) ops

instance instDecidableFreshOps : (ops : List LedgerOp) → (s : AppData) →
    Decidable (FreshOps s ops)
  | [], _ => isTrue trivial
  | op :: ops, s =>
    haveI := instDecidableFreshOps ops (applyOp s op)
    inferInstanceAs (Decidable (OpFresh s op ∧ FreshOps (applyOp s op) ops))

def c2Account : Account := { id := "a1", name := "Cash", balance := 0, openingBalance := 0 }

def c2State : AppData :=
  { transactions := [], accounts := [c2Account], parties := [],
    investments := [], tasks := [], journal := [], goals := [] }

def c2Tx : Transaction :=
  { id := "t1", ttype := .income, date := "2024-01-01", description := "salary",
    category := "Income", amount := 100, account := "a1", partyId := none, notes := "" }

def c2TxB : Transaction :=
  { id := "", ttype := .expense, date := "2024-01-02", description := "rent",
    category := "Housing", amount := 40, account := "a1", partyId := none, notes := "" }

def c2TxB' : Transaction :=
  { id := "t2", ttype := .expense, date := "2024-01-02", description := "rent",
    category := "Housing", amount := 55, account := "a1", partyId := none, notes := "" }

def c2Ops : List LedgerOp :=
  [.mayaRecord c2Tx, .save c2TxB "t2", .save c2TxB' "x", .delete "t1"]

/-- No sell in the list, replayed from running quantity `q`, ever exceeds the
quantity held at that point (each sell also has positive quantity). -/
def noOversellB : ℚ → List InvestmentTrade → Bool
  | _, [] => true
  | q, t :: rest =>
    if t.ttype = .buy then noOversellB (q + t.qty) rest
    else (decide (0 < t.qty) && decide (t.qty ≤ q)) && noOversellB (q - t.qty) rest

/-! ## Witnesses -/

def w8Buy : InvestmentTrade :=
  { id := "w1", date := "2024-01-01", ttype := .buy, qty := 10, price := 100, charges := 0 }

def w8Sell : InvestmentTrade :=
  { id := "w2", date := "2024-01-02", ttype := .sell, qty := 4, price := 150, charges := 5 }

def wSellAll : InvestmentTrade :=
  { id := "ws", date := "2024-01-05", ttype := .sell, qty := 1, price := 10, charges := 0 }

def wBuyAgain : InvestmentTrade :=
  { id := "wb", date := "2024-01-06", ttype := .buy, qty := 2, price := 7, charges := 0 }

def c4IncrSell : TsxTradeData :=
  { ttype := .sell, qty := 2, price := 10, charges := 0,
    date := "2024-02-01", accountId := "acc1" }

def c6Party : Party := { id := "p1", name := "Acme", currentBalance := 5 }

def c6State : AppData :=
  { transactions := [], accounts := [c2Account], parties := [c6Party],
    investments := [], tasks := [], journal := [], goals := [] }

def c6Tx : Transaction :=
  { id := "", ttype := .sale, date := "2024-01-01", description := "sold goods",
    category := "Sales", amount := 30, account := "a1", partyId := some "p1", notes := "" }

def c7Tx : Transaction :=
  { id := "t1", ttype := .income, date := "2024-01-03", description := "consulting",
    category := "Income", amount := 100, account := "a1", partyId := some "p1", notes := "" }

def c7State : AppData :=
  { transactions := [c7Tx], accounts := [c2Account], parties := [c6Party],
    investments := [], tasks := [], journal := [], goals := [] }

/-! ## Theorems -/

/-- Claim C1: starting from an asset with empty history, a buy of 10 units at
price 100 with charges 10 followed by a sell of 4 units at price 150 with
charges 5 replays to `qty = 6`, `avgBuyPrice = 101` (already 101 after the
buy), and `totalRealizedPL = (150 - 101) * 4 - 5 = 191`. -/
theorem executeTrade_cost_basis_scenario :
    ((executeTradeReplay baseState c1Buy "1000").map
      (fun d => d.investments.map (fun i => (i.qty, i.avgBuyPrice, i.totalRealizedPL)))
      = some [(10, 101, 0)])
    ∧ (((executeTradeReplay baseState c1Buy "1000").bind
          (fun d => executeTradeReplay d c1Sell "2000")).map
        (fun d => d.investments.map (fun i => (i.qty, i.avgBuyPrice, i.totalRealizedPL)))
      = some [(6, 101, 191)]) := by
  with_unfolding_all decide

/-- Claim C5 (behaviour at the failing input): each executed trade keeps
exactly one linked ledger transaction (the list is deduplicated by the
trade-derived id), but amending the trade with identical content pushes the
raw settlement delta again: after the identical re-execution of trade `t1`
the account balance is `-2020`, not the `-1010` a reversal-based amend
would leave, while the transaction and history counts stay 1. -/
theorem executeTrade_amend_double_counts :
    ((executeTradeReplay baseState c5Cmd "1000").map
      (fun d => (d.accounts.map (fun a => a.balance), d.transactions.length,
                 d.investments.map (fun i => i.history.length)))
      = some ([-1010], 1, [1]))
    ∧ (((executeTradeReplay baseState c5Cmd "1000").bind
          (fun d => executeTradeReplay d c5Cmd "2000")).map
        (fun d => (d.accounts.map (fun a => a.balance), d.transactions.length,
                   d.investments.map (fun i => i.history.length)))
      = some ([-2020], 1, [1])) := by
  set_option maxRecDepth 10000 in
  with_unfolding_all decide

/-- Claim C10: the dispatcher's `deleteEntry` with type `transaction`
removes exactly the transactions whose lower-cased description contains the
lower-cased search term, and leaves every account and every party record
(hence every balance) unchanged — no signed-delta reversal happens. -/
theorem mayaDeleteEntry_transaction_frame (s : AppData) (term : String) :
    (mayaDeleteEntry s "transaction" term).accounts = s.accounts ∧
    (mayaDeleteEntry s "transaction" term).parties = s.parties ∧
    (mayaDeleteEntry s "transaction" term).transactions
      = s.transactions.filter
          (fun t => ¬ strIncludes (toLowerStr t.description) (toLowerStr term)) := by
  unfold mayaDeleteEntry
  simp only [String.reduceEq, reduceIte]
  split
  · exact ⟨rfl, rfl, rfl⟩
  · rename_i hlen
    refine ⟨rfl, rfl, ?_⟩
    have hle := List.length_filter_le
      (fun t => ¬ strIncludes (toLowerStr t.description) (toLowerStr term)) s.transactions
    have heq : (s.transactions.filter
        (fun t => ¬ strIncludes (toLowerStr t.description) (toLowerStr term))).length
        = s.transactions.length := le_antisymm hle (Nat.le_of_not_lt hlen)
    have := List.filter_length_eq_length.mp heq
    exact (List.filter_eq_self.mpr this).symm

theorem replayStep_q (st : ReplayState) (t : InvestmentTrade) :
    (replayStep st t).q = st.q + signedQty t := by
  unfold replayStep signedQty
  by_cases h : t.ttype = .buy <;> simp [h] <;> ring

theorem replayFold_q (l : List InvestmentTrade) :
    ∀ st : ReplayState, (replayFold st l).q = st.q + netQty l := by
  induction l with
  | nil => intro st; simp [replayFold, netQty]
  | cons t l ih =>
    intro st
    have h1 : replayFold st (t :: l) = replayFold (replayStep st t) l := rfl
    rw [h1, ih, replayStep_q]
    simp [netQty]
    ring

theorem netQty_sortTrades (l : List InvestmentTrade) : netQty (sortTrades l) = netQty l := by
  unfold netQty sortTrades
  exact List.Perm.sum_eq (List.Perm.map _ (List.perm_insertionSort _ l))

theorem netQty_append (l₁ l₂ : List InvestmentTrade) :
    netQty (l₁ ++ l₂) = netQty l₁ + netQty l₂ := by
  simp [netQty]

/-- The replayed quantity of a derived asset is the net signed quantity. -/
theorem deriveAsset_replay_q (h : List InvestmentTrade) :
    (replayFold ⟨0, 0, 0⟩ (sortTrades h)).q = netQty h := by
  rw [replayFold_q, netQty_sortTrades]; ring

/-- Claim C3, counterexample: in the incremental `executeTrade` of
`PortfolioPage.tsx`, selling the entire holding (1 unit of an asset with
`avgBuyPrice = 101`) leaves `qty = 0` but `avgBuyPrice = 101 ≠ 0` and
`status = "active" ≠ "closed"`, refuting the claimed
`avgBuyPrice = 0 ↔ qty = 0` and `status = closed ↔ qty = 0` invariants and
the closing behaviour. -/
theorem executeTradeIncr_sell_all_not_closed :
    (executeTradeIncr c3State c3Asset c3Sell "99").map
      (fun d => d.investments.map (fun i => (i.qty, i.avgBuyPrice, i.status)))
      = some [(0, 101, "active")] := by
  with_unfolding_all decide

/-- The derived quantity field, in closed form. -/
theorem deriveAsset_qty (b : Investment) (h : List InvestmentTrade) :
    (deriveAsset b h).qty = max 0 (netQty h) := by
  simp only [deriveAsset]
  rw [deriveAsset_replay_q]

/-- The derived status field, in closed form. -/
theorem deriveAsset_status (b : Investment) (h : List InvestmentTrade) :
    (deriveAsset b h).status = if 0 < netQty h then "active" else "closed" := by
  simp only [deriveAsset]
  rw [deriveAsset_replay_q]

/-- When the net quantity is not positive the derived average is zero. -/
theorem deriveAsset_avg_of_nonpos (b : Investment) (h : List InvestmentTrade)
    (hle : ¬ 0 < netQty h) : (deriveAsset b h).avgBuyPrice = 0 := by
  simp only [deriveAsset]
  rw [deriveAsset_replay_q, if_neg hle]

/-- Claim C3, amended: for the replay-based engine (part_001), the derived
state of any history satisfies `qty ≥ 0`, `status = closed ↔ qty = 0`, and
`qty = 0 → avgBuyPrice = 0` (the converse implication can fail after an
oversell); selling all remaining units drives `qty = 0`,
`avgBuyPrice = 0`, `status = closed`; and a subsequent buy reopens
`status = active`. -/
theorem replay_derived_state_invariants :
    (∀ (b : Investment) (h : List InvestmentTrade),
        0 ≤ (deriveAsset b h).qty
        ∧ ((deriveAsset b h).status = "closed" ↔ (deriveAsset b h).qty = 0)
        ∧ ((deriveAsset b h).qty = 0 → (deriveAsset b h).avgBuyPrice = 0))
    ∧ (∀ (b : Investment) (h : List InvestmentTrade) (s : InvestmentTrade),
        s.ttype = .sell → s.qty = netQty h → 0 < netQty h →
        (deriveAsset b (h ++ [s])).qty = 0
        ∧ (deriveAsset b (h ++ [s])).avgBuyPrice = 0
        ∧ (deriveAsset b (h ++ [s])).status = "closed")
    ∧ (∀ (b : Investment) (h : List InvestmentTrade) (t : InvestmentTrade),
        t.ttype = .buy → netQty h = 0 → 0 < t.qty →
        (deriveAsset b (h ++ [t])).status = "active") := by
  refine ⟨?_, ?_, ?_⟩
  · intro b h
    rw [deriveAsset_qty, deriveAsset_status]
    by_cases hpos : 0 < netQty h
    · have hmax : max 0 (netQty h) = netQty h := max_eq_right hpos.le
      rw [if_pos hpos, hmax]
      refine ⟨hpos.le, ?_, fun hz => absurd hz (ne_of_gt hpos)⟩
      constructor
      · intro hc; exact absurd hc (by decide)
      · intro hz; exact absurd hz (ne_of_gt hpos)
    · have hmax : max 0 (netQty h) = 0 := max_eq_left (le_of_not_lt hpos)
      rw [if_neg hpos, hmax]
      exact ⟨le_refl 0, ⟨fun _ => rfl, fun _ => rfl⟩,
        fun _ => deriveAsset_avg_of_nonpos b h hpos⟩
  · intro b h s hsell hqty hpos
    have hnet : netQty (h ++ [s]) = 0 := by
      rw [netQty_append]
      have hs : signedQty s = -netQty h := by
        unfold signedQty
        rw [if_neg (by rw [hsell]; decide), hqty]
      simp [netQty, hs]
    have hnotpos : ¬ 0 < netQty (h ++ [s]) := by rw [hnet]; exact lt_irrefl 0
    refine ⟨?_, deriveAsset_avg_of_nonpos _ _ hnotpos, ?_⟩
    · rw [deriveAsset_qty, hnet, max_self]
    · rw [deriveAsset_status, if_neg hnotpos]
  · intro b h t hbuy hnet hpos
    have hnet2 : netQty (h ++ [t]) = t.qty := by
      rw [netQty_append, hnet]
      have hs : signedQty t = t.qty := by unfold signedQty; rw [if_pos hbuy]
      simp [netQty, hs]
    rw [deriveAsset_status, hnet2, if_pos hpos]

/-- Claim C4, counterexample: the replay-based `executeTrade` of part_001
has no oversell check. Selling 5 units of an asset whose history is empty
succeeds: the sell is appended to the history, the settlement account is
credited by 50, and a linked transaction is created — the displayed
quantity is merely clamped to 0. -/
theorem executeTradeReplay_oversell_applied :
    (executeTradeReplay baseState c4Sell "77").map
      (fun d => (d.investments.map (fun i => (i.qty, i.totalRealizedPL, i.history.length)),
                 d.accounts.map (fun a => a.balance), d.transactions.length))
      = some ([(0, 50, 1)], [50], 1) := by
  with_unfolding_all decide

/-- Claim C4, amended: the incremental `executeTrade` of
`PortfolioPage.tsx` rejects a sell whose quantity exceeds the held
quantity with no state change (`none`), and a sell is applied there only
when the held quantity suffices. The part_001 path has no such check (see
the counterexample). -/
theorem executeTradeIncr_oversell_strict :
    (∀ (data : AppData) (a : Investment) (td : TsxTradeData) (ts : String),
        td.ttype = .sell → a.qty < td.qty → executeTradeIncr data a td ts = none)
    ∧ (∀ (data : AppData) (a : Investment) (td : TsxTradeData) (ts : String)
        (d' : AppData), executeTradeIncr data a td ts = some d' →
        td.ttype = .sell → td.qty ≤ a.qty) := by
  constructor
  · intro data a td ts hsell hover
    unfold executeTradeIncr
    by_cases hv : td.qty ≤ 0 ∨ td.price ≤ 0
    · rw [if_pos hv]
    · rw [if_neg hv, if_pos ⟨hsell, hover⟩]
  · intro data a td ts d' hsome hsell
    unfold executeTradeIncr at hsome
    by_cases hv : td.qty ≤ 0 ∨ td.price ≤ 0
    · rw [if_pos hv] at hsome; exact absurd hsome (by simp)
    · rw [if_neg hv] at hsome
      by_cases hover : td.ttype = .sell ∧ a.qty < td.qty
      · rw [if_pos hover] at hsome; exact absurd hsome (by simp)
      · rw [if_neg hover] at hsome
        by_contra hlt
        exact hover ⟨hsell, lt_of_not_le hlt⟩

/-- Claim C8, counterexample: a history whose earliest trade is a buy and
which contains later sells, but in which a sell overdraws the position,
replays to the same `totalRealizedPL = 30` for first-buy prices 100 and
200 — amending the earliest buy's price need not change the replayed
total. -/
theorem replay_retroactive_edit_can_preserve_pl :
    c8t1.ttype = .buy ∧ c8t1' = { c8t1 with price := 200 } ∧ c8t1.price ≠ c8t1'.price
    ∧ c8t2.ttype = .sell ∧ lexLe c8t1.date.toList c8t2.date.toList = true
    ∧ (deriveAsset baseAsset [c8t1, c8t2, c8t3, c8t4]).totalRealizedPL = 30
    ∧ (deriveAsset baseAsset [c8t1', c8t2, c8t3, c8t4]).totalRealizedPL = 30 := by
  with_unfolding_all decide

/-- Claim C9: `handleUpdateMktPrice` (setMarkPrice) with `price ≥ 0`
leaves accounts, parties and transactions untouched, and maps each asset
to itself except that the matching asset's `currPrice` becomes the new
price — `qty`, `avgBuyPrice`, `history`, `totalRealizedPL` and `status`
are all preserved; the display-time unrealized P/L is
`(currPrice - avgBuyPrice) * qty`, computed, never stored. -/
theorem handleUpdateMktPrice_frame (s : AppData) (assetId : String) (price : ℚ)
    (hp : 0 ≤ price) :
    (handleUpdateMktPrice s assetId price).accounts = s.accounts ∧
    (handleUpdateMktPrice s assetId price).parties = s.parties ∧
    (handleUpdateMktPrice s assetId price).transactions = s.transactions ∧
    List.Forall₂ (fun inv inv' =>
        inv'.id = inv.id ∧ inv'.name = inv.name ∧ inv'.assetType = inv.assetType ∧
        inv'.qty = inv.qty ∧ inv'.avgBuyPrice = inv.avgBuyPrice ∧
        inv'.history = inv.history ∧ inv'.totalRealizedPL = inv.totalRealizedPL ∧
        inv'.status = inv.status ∧
        inv'.currPrice = (if inv.id == assetId then price else inv.currPrice) ∧
        currentUnrealizedPL inv' =
          ((if inv.id == assetId then price else inv.currPrice) - inv.avgBuyPrice) * inv.qty)
      s.investments (handleUpdateMktPrice s assetId price).investments := by
  refine ⟨rfl, rfl, rfl, ?_⟩
  show List.Forall₂ _ s.investments (s.investments.map _)
  induction s.investments with
  | nil => exact List.Forall₂.nil
  | cons a l ih =>
    refine List.Forall₂.cons ?_ ih
    by_cases hid : (a.id == assetId) = true
    · simp [hid, currentUnrealizedPL]
    · simp only [Bool.not_eq_true] at hid
      simp [hid, currentUnrealizedPL]

theorem updateFirst_cons (p : α → Bool) (f : α → α) (a : α) (l : List α) :
    updateFirst p f (a :: l) = if p a then f a :: l else a :: updateFirst p f l := rfl

theorem updateFirst_id (p : α → Bool) (l : List α) :
    updateFirst p (fun a => a) l = l := by
  induction l with
  | nil => rfl
  | cons a l ih =>
    by_cases h : p a = true <;> simp [updateFirst_cons, h, ih]

theorem updateFirst_updateFirst (p : α → Bool) (f g : α → α)
    (hpg : ∀ a, p (g a) = p a) (l : List α) :
    updateFirst p f (updateFirst p g l) = updateFirst p (fun a => f (g a)) l := by
  induction l with
  | nil => rfl
  | cons a l ih =>
    by_cases h : p a = true
    · simp [updateFirst_cons, h, hpg a]
    · simp [updateFirst_cons, h, ih]

theorem updateFirst_congr_fn (p : α → Bool) (f g : α → α) (hfg : ∀ a, f a = g a)
    (l : List α) : updateFirst p f l = updateFirst p g l := by
  induction l with
  | nil => rfl
  | cons a l ih =>
    by_cases h : p a = true <;> simp [updateFirst_cons, h, hfg a, ih]

theorem find?_updateFirst (p : α → Bool) (f : α → α) (hpf : ∀ a, p (f a) = p a)
    (l : List α) : (updateFirst p f l).find? p = (l.find? p).map f := by
  induction l with
  | nil => rfl
  | cons a l ih =>
    by_cases h : p a = true
    · rw [updateFirst_cons, if_pos h, List.find?_cons_of_pos _ (by rw [hpf a]; exact h),
        List.find?_cons_of_pos _ h]
      rfl
    · rw [updateFirst_cons, if_neg h, List.find?_cons_of_neg _ h,
        List.find?_cons_of_neg _ h, ih]

/-- Reversing and re-applying the same balance delta on the same account slot
is the identity. -/
theorem updateFirst_balance_cancel (k : String) (d : ℚ) (l : List Account) :
    updateFirst (fun a => a.id == k) (fun a => { a with balance := a.balance + d })
      (updateFirst (fun a => a.id == k)
        (fun a => { a with balance := a.balance - d }) l) = l := by
  rw [updateFirst_updateFirst (fun a => a.id == k)
      (fun a => { a with balance := a.balance + d })
      (fun a => { a with balance := a.balance - d }) (fun a => rfl) l,
    updateFirst_congr_fn (fun a => a.id == k) _ (fun a => a) (fun a => by simp) l,
    updateFirst_id (fun a => a.id == k) l]

/-- Reversing and re-applying the same delta on the same party slot is the
identity. -/
theorem updateFirst_party_cancel (pid : Option String) (d : ℚ) (l : List Party) :
    updateFirst (fun p => some p.id == pid)
      (fun p => { p with currentBalance := p.currentBalance + d })
      (updateFirst (fun p => some p.id == pid)
        (fun p => { p with currentBalance := p.currentBalance - d }) l) = l := by
  rw [updateFirst_updateFirst (fun p => some p.id == pid)
      (fun p => { p with currentBalance := p.currentBalance + d })
      (fun p => { p with currentBalance := p.currentBalance - d }) (fun p => rfl) l,
    updateFirst_congr_fn (fun p => some p.id == pid) _ (fun p => p) (fun p => by simp) l,
    updateFirst_id (fun p => some p.id == pid) l]

/-- Claim C7: amending an existing transaction with identical content
(same kind, amount, account, party) leaves the accounts list and the
parties list — hence every balance — exactly unchanged, because the amend
path reverses the old signed deltas before applying the new ones. -/
theorem amend_identical_preserves_balances (s : AppData) (tx : Transaction) (fid : String)
    (hid : tx.id ≠ "")
    (hfind : s.transactions.find? (fun t => t.id == tx.id) = some tx) :
    (handleSave s tx fid).accounts = s.accounts ∧
    (handleSave s tx fid).parties = s.parties := by
  simp only [handleSave]
  by_cases hv : tx.description = "" ∨ tx.amount = 0 ∨ tx.date = ""
  · rw [if_pos hv]; exact ⟨rfl, rfl⟩
  · rw [if_neg hv, if_neg hid, if_pos hid, hfind]
    simp only [Option.elim]
    exact ⟨updateFirst_balance_cancel _ _ _, updateFirst_party_cancel _ _ _⟩

/-- Claim C6: when the record path of `handleSave` applies a transaction
whose `partyId` resolves, the party's `currentBalance` changes by the
party-signed delta: `+amount` for sale, `-amount` for purchase, `-amount`
for income, `+amount` for expense. -/
theorem recordTransaction_party_delta (s : AppData) (tx : Transaction) (fid : String)
    (hrecord : tx.id = "")
    (hvalid : ¬ (tx.description = "" ∨ tx.amount = 0 ∨ tx.date = ""))
    (p₀ : Party)
    (hfind : s.parties.find? (fun p => some p.id == tx.partyId) = some p₀) :
    (handleSave s tx fid).parties.find? (fun p => some p.id == tx.partyId)
      = some { p₀ with currentBalance := p₀.currentBalance +
          (match tx.ttype with
           | .sale => tx.amount
           | .purchase => -tx.amount
           | .income => -tx.amount
           | .expense => tx.amount) } := by
  simp only [handleSave]
  rw [if_neg hvalid, if_pos hrecord, if_neg (show ¬ tx.id ≠ "" from fun h => h hrecord)]
  rw [find?_updateFirst (fun p => some p.id == tx.partyId)
      (fun p => { p with currentBalance :=
        p.currentBalance + partySignedDelta { tx with id := fid } })
      (fun p => rfl) s.parties, hfind]
  cases htt : tx.ttype <;> rfl

theorem accountSum_nil (aid : String) : accountSum aid [] = 0 := rfl

theorem accountSum_cons (aid : String) (t : Transaction) (txs : List Transaction) :
    accountSum aid (t :: txs)
      = (if t.account == aid then signedDelta t else 0) + accountSum aid txs := by
  unfold accountSum
  by_cases h : (t.account == aid) = true
  · simp [List.filter_cons, h]
  · simp [List.filter_cons, h]

theorem accountSum_filter_ne (aid k : String) (txs : List Transaction)
    (old : Transaction)
    (hnodup : (txs.map (fun t => t.id)).Nodup)
    (hfind : txs.find? (fun t => t.id == k) = some old) :
    accountSum aid (txs.filter (fun t => ¬ t.id == k))
      = accountSum aid txs - (if old.account == aid then signedDelta old else 0) := by
  induction txs with
  | nil => simp at hfind
  | cons t ts ih =>
    rw [List.map_cons, List.nodup_cons] at hnodup
    by_cases ht : (t.id == k) = true
    · simp only [List.find?, ht] at hfind
      injection hfind with hold
      subst hold
      have hts : ∀ t' ∈ ts, ¬ ((t'.id == k) = true) := by
        intro t' ht' hkk
        apply hnodup.1
        rw [List.mem_map]
        refine ⟨t', ht', ?_⟩
        rw [beq_iff_eq] at ht hkk
        rw [hkk, ht]
      rw [List.filter_cons, if_neg (by simp [ht]), accountSum_cons]
      rw [List.filter_eq_self.mpr (by intro t' ht'; simp [hts t' ht'])]
      ring
    · simp only [List.find?, Bool.not_eq_true] at ht hfind
      rw [ht] at hfind
      simp only at hfind
      rw [List.filter_cons, if_pos (by simp [ht]), accountSum_cons, accountSum_cons,
        ih hnodup.2 hfind]
      ring

theorem map_ite_update_ids (k : String) (f : Account → Account)
    (hf : ∀ a, (f a).id = a.id) (l : List Account) :
    ((l.map (fun a => if a.id == k then f a else a)).map (fun a => a.id))
      = l.map (fun a => a.id) := by
  rw [List.map_map]
  apply List.map_congr_left
  intro a _
  by_cases h : (a.id == k) = true <;> simp [Function.comp, h, hf a]

theorem updateFirst_eq_map_account (k : String) (f : Account → Account)
    (l : List Account) (hnodup : (l.map (fun a => a.id)).Nodup) :
    updateFirst (fun a => a.id == k) f l
      = l.map (fun a => if a.id == k then f a else a) := by
  induction l with
  | nil => rfl
  | cons a l ih =>
    rw [List.map_cons, List.nodup_cons] at hnodup
    by_cases h : (a.id == k) = true
    · rw [updateFirst_cons, if_pos h, List.map_cons, if_pos h]
      have hl : ∀ b ∈ l, ¬ ((b.id == k) = true) := by
        intro b hb hbk
        apply hnodup.1
        rw [List.mem_map]
        refine ⟨b, hb, ?_⟩
        rw [beq_iff_eq] at h hbk
        rw [hbk, h]
      have : l.map (fun a => if a.id == k then f a else a) = l.map (fun a => a) := by
        apply List.map_congr_left
        intro b hb
        rw [if_neg (hl b hb)]
      rw [this, List.map_id']
    · rw [updateFirst_cons, if_neg h, List.map_cons, if_neg h, ih hnodup.2]

theorem balancesOk_map (accounts : List Account) (txs txs' : List Transaction)
    (k : String) (d : ℚ)
    (hsum : ∀ aid : String, accountSum aid txs'
      = accountSum aid txs + (if k == aid then d else 0))
    (h : balancesOk accounts txs) :
    balancesOk
      (accounts.map (fun a => if a.id == k then { a with balance := a.balance + d } else a))
      txs' := by
  intro a' ha'
  rw [List.mem_map] at ha'
  obtain ⟨a, ha, rfl⟩ := ha'
  by_cases hk : (a.id == k) = true
  · rw [if_pos hk]
    show a.balance + d = a.openingBalance + accountSum a.id txs'
    rw [hsum a.id, h a ha]
    have hk' : (k == a.id) = true := by
      rw [beq_iff_eq] at hk ⊢; exact hk.symm
    rw [if_pos hk']
    ring
  · rw [if_neg hk]
    rw [hsum a.id, h a ha]
    have hk' : ¬ ((k == a.id) = true) := by
      intro hkk
      apply hk
      rw [beq_iff_eq] at hkk ⊢
      exact hkk.symm
    rw [if_neg hk']
    ring

/-- Recording a fresh transaction preserves the invariant components. -/
theorem invariant_components_record (accounts : List Account)
    (txs : List Transaction) (t : Transaction)
    (hfresh : ∀ t' ∈ txs, t'.id ≠ t.id)
    (hbal : balancesOk accounts txs)
    (hntx : (txs.map (fun t => t.id)).Nodup)
    (hnacc : (accounts.map (fun a => a.id)).Nodup) :
    balancesOk
      (accounts.map (fun a =>
        if a.id == t.account then { a with balance := a.balance + signedDelta t } else a))
      (t :: txs)
    ∧ ((t :: txs).map (fun t => t.id)).Nodup
    ∧ ((accounts.map (fun a =>
        if a.id == t.account then { a with balance := a.balance + signedDelta t } else a)).map
          (fun a => a.id)).Nodup := by
  refine ⟨?_, ?_, ?_⟩
  · apply balancesOk_map accounts txs (t :: txs) t.account (signedDelta t) ?_ hbal
    intro aid
    rw [accountSum_cons]
    ring
  · rw [List.map_cons, List.nodup_cons]
    constructor
    · intro hmem
      rw [List.mem_map] at hmem
      obtain ⟨t', ht', he⟩ := hmem
      exact hfresh t' ht' he
    · exact hntx
  · rw [map_ite_update_ids t.account
      (fun a => { a with balance := a.balance + signedDelta t }) (fun a => rfl) accounts]
    exact hnacc

/-- Removing the (unique) transaction with a given id and reversing its
delta preserves the invariant components. -/
theorem invariant_components_remove (accounts : List Account)
    (txs : List Transaction) (k : String) (old : Transaction)
    (hfind : txs.find? (fun t => t.id == k) = some old)
    (hbal : balancesOk accounts txs)
    (hntx : (txs.map (fun t => t.id)).Nodup)
    (hnacc : (accounts.map (fun a => a.id)).Nodup) :
    balancesOk
      (accounts.map (fun a =>
        if a.id == old.account then
          { a with balance := a.balance + -signedDelta old } else a))
      (txs.filter (fun t => ¬ t.id == k))
    ∧ ((txs.filter (fun t => ¬ t.id == k)).map (fun t => t.id)).Nodup
    ∧ ((accounts.map (fun a =>
        if a.id == old.account then
          { a with balance := a.balance + -signedDelta old } else a)).map
          (fun a => a.id)).Nodup := by
  refine ⟨?_, ?_, ?_⟩
  · apply balancesOk_map accounts txs _ old.account (-signedDelta old) ?_ hbal
    intro aid
    rw [accountSum_filter_ne aid k txs old hntx hfind]
    by_cases h : (old.account == aid) = true
    · rw [if_pos h, if_pos h]; ring
    · rw [if_neg h, if_neg h]; ring
  · have hsub : ((txs.filter (fun t => ¬ t.id == k)).map (fun t => t.id)).Sublist
        (txs.map (fun t => t.id)) := (List.filter_sublist txs).map _
    exact hsub.nodup hntx
  · rw [map_ite_update_ids old.account
      (fun a => { a with balance := a.balance + -signedDelta old }) (fun a => rfl) accounts]
    exact hnacc

theorem mayaRecord_preserves (s : AppData) (t : Transaction)
    (hinv : LedgerInvariant s)
    (hfresh : ∀ t' ∈ s.transactions, t'.id ≠ t.id) :
    LedgerInvariant (mayaRecordTransaction s t) :=
  invariant_components_record s.accounts s.transactions t hfresh
    hinv.1 hinv.2.1 hinv.2.2

theorem deleteTransaction_preserves (s : AppData) (id : String)
    (hinv : LedgerInvariant s) :
    LedgerInvariant (deleteTransaction s id) := by
  cases hf : s.transactions.find? (fun t => t.id == id) with
  | none =>
    unfold deleteTransaction
    rw [hf]
    exact hinv
  | some tr =>
    have hd : (if tr.ttype = .income ∨ tr.ttype = .sale then -tr.amount else tr.amount)
        = -signedDelta tr := by
      unfold signedDelta
      by_cases h : tr.ttype = .income ∨ tr.ttype = .sale
      · rw [if_pos h, if_pos h]
      · rw [if_neg h, if_neg h]; ring
    unfold deleteTransaction
    rw [hf]
    simp only [Option.elim, hd]
    exact invariant_components_remove s.accounts s.transactions id tr hf
      hinv.1 hinv.2.1 hinv.2.2

theorem handleSave_preserves (s : AppData) (e : Transaction) (fid : String)
    (hinv : LedgerInvariant s)
    (hfresh : e.id = "" → ∀ t ∈ s.transactions, t.id ≠ fid) :
    LedgerInvariant (handleSave s e fid) := by
  by_cases hv : e.description = "" ∨ e.amount = 0 ∨ e.date = ""
  · unfold handleSave
    rw [if_pos hv]
    exact hinv
  · by_cases hid : e.id = ""
    · -- record path
      unfold handleSave
      rw [if_neg hv, if_pos hid, if_neg (show ¬ e.id ≠ "" from fun h => h hid)]
      dsimp only
      rw [updateFirst_eq_map_account _ _ s.accounts hinv.2.2]
      refine invariant_components_record s.accounts s.transactions
        { e with id := fid } ?_ hinv.1 hinv.2.1 hinv.2.2
      exact fun t' ht' he => hfresh hid t' ht' he
    · -- amend path
      unfold handleSave
      rw [if_neg hv, if_neg hid, if_pos hid]
      cases hf : s.transactions.find? (fun t => t.id == e.id) with
      | none =>
        simp only [Option.elim]
        rw [updateFirst_eq_map_account _ _ s.accounts hinv.2.2]
        refine invariant_components_record s.accounts s.transactions
          { e with id := e.id } ?_ hinv.1 hinv.2.1 hinv.2.2
        intro t' ht' he
        have := List.find?_eq_none.mp hf t' ht'
        apply this
        rw [beq_iff_eq]
        exact he
      | some old =>
        simp only [Option.elim, sub_eq_add_neg]
        obtain ⟨hbal1, hntx1, hnacc1⟩ :=
          invariant_components_remove s.accounts s.transactions e.id old hf
            hinv.1 hinv.2.1 hinv.2.2
        rw [updateFirst_eq_map_account _ _ s.accounts hinv.2.2,
          updateFirst_eq_map_account _ _ _ hnacc1]
        refine invariant_components_record _ _ { e with id := e.id } ?_ hbal1 hntx1 hnacc1
        intro t' ht' he
        rw [List.mem_filter] at ht'
        have := ht'.2
        simp only [decide_not, Bool.not_eq_true', decide_eq_false_iff_not] at this
        apply this
        rw [beq_iff_eq]
        exact he

theorem applyOp_preserves (s : AppData) (op : LedgerOp)
    (hinv : LedgerInvariant s) (hfresh : OpFresh s op) :
    LedgerInvariant (applyOp s op) := by
  cases op with
  | save e fid => exact handleSave_preserves s e fid hinv hfresh
  | delete id => exact deleteTransaction_preserves s id hinv
  | mayaRecord t => exact mayaRecord_preserves s t hinv hfresh

/-- Claim C2, amended: starting from a state satisfying the global
invariant (every account balance equals its opening balance plus the
signed sum of live transactions referencing it, with ids unique), any
sequence of part_004 `handleSave` (record or amend), part_004
`deleteTransaction`, and dispatcher `recordTransaction` operations whose
generated ids are fresh preserves the invariant. The dispatcher's
`deleteEntry` path is excluded: it breaks the invariant (see the
counterexample). -/
theorem ledger_invariant_preserved (ops : List LedgerOp) :
    ∀ s : AppData, LedgerInvariant s → FreshOps s ops →
      LedgerInvariant (ops.foldl applyOp s) := by
  induction ops with
  | nil => intro s h _; exact h
  | cons op ops ih =>
    intro s h hf
    exact ih (applyOp s op) (applyOp_preserves s op h hf.1) hf.2

/-- Claim C2, counterexample: the dispatcher's `deleteEntry` path removes
a matching transaction without reversing its delta. Recording an income of
100 and then deleting it through `deleteEntry` leaves the account balance
at 100 with no live transactions, violating the claimed invariant. -/
theorem maya_delete_breaks_invariant :
    LedgerInvariant c2State
    ∧ LedgerInvariant (mayaRecordTransaction c2State c2Tx)
    ∧ ¬ LedgerInvariant
        (mayaDeleteEntry (mayaRecordTransaction c2State c2Tx) "transaction" "sal") := by
  with_unfolding_all decide

/-- Witness for the amended claim C2 at a concrete run of four
operations (dispatcher record, ledger record, amend, delete). -/
theorem ledger_invariant_preserved_witness :
    LedgerInvariant (c2Ops.foldl applyOp c2State) :=
  ledger_invariant_preserved c2Ops c2State
    (by with_unfolding_all decide) (by with_unfolding_all decide)

theorem replayStep_buy (q cb pl : ℚ) (t : InvestmentTrade) (hb : t.ttype = .buy) :
    replayStep ⟨q, cb, pl⟩ t = ⟨q + t.qty, cb + (t.qty * t.price + t.charges), pl⟩ := by
  simp only [replayStep, hb, if_true]

theorem replayStep_sell (q cb pl : ℚ) (t : InvestmentTrade)
    (hb : ¬ t.ttype = .buy) (hq : 0 < q) :
    replayStep ⟨q, cb, pl⟩ t
      = ⟨q - t.qty, cb - (cb / q) * t.qty, pl + ((t.price - cb / q) * t.qty - t.charges)⟩ := by
  simp only [replayStep, hb, if_false, if_pos hq]

theorem replayFold_cons (st : ReplayState) (t : InvestmentTrade)
    (l : List InvestmentTrade) :
    replayFold st (t :: l) = replayFold (replayStep st t) l := rfl

/-- Once the profit gap is strict and the cost-basis gap is nonnegative, an
oversell-free replay keeps the profit gap strict. -/
theorem replay_pl_gap_mono (rest : List InvestmentTrade) :
    ∀ q cb₁ cb₂ pl₁ pl₂ : ℚ, noOversellB q rest = true →
      cb₁ ≤ cb₂ → pl₂ < pl₁ →
      (replayFold ⟨q, cb₂, pl₂⟩ rest).pl < (replayFold ⟨q, cb₁, pl₁⟩ rest).pl := by
  induction rest with
  | nil => intro q cb₁ cb₂ pl₁ pl₂ _ _ h; exact h
  | cons t rest ih =>
    intro q cb₁ cb₂ pl₁ pl₂ hnov hcb hpl
    by_cases hb : t.ttype = .buy
    · unfold noOversellB at hnov
      rw [if_pos hb] at hnov
      rw [replayFold_cons, replayFold_cons, replayStep_buy _ _ _ _ hb,
        replayStep_buy _ _ _ _ hb]
      exact ih (q + t.qty) _ _ _ _ hnov (by linarith) hpl
    · unfold noOversellB at hnov
      rw [if_neg hb] at hnov
      simp only [Bool.and_eq_true, decide_eq_true_eq] at hnov
      obtain ⟨⟨htq, hle⟩, hnov'⟩ := hnov
      have hq : 0 < q := lt_of_lt_of_le htq hle
      rw [replayFold_cons, replayFold_cons, replayStep_sell _ _ _ _ hb hq,
        replayStep_sell _ _ _ _ hb hq]
      apply ih (q - t.qty) _ _ _ _ hnov'
      · have h2 : t.qty / q ≤ 1 := (div_le_one hq).mpr hle
        have key : (cb₂ - cb₂ / q * t.qty) - (cb₁ - cb₁ / q * t.qty)
            = (cb₂ - cb₁) * (1 - t.qty / q) := by ring
        have hnn := mul_nonneg (by linarith : (0:ℚ) ≤ cb₂ - cb₁)
          (by linarith : (0:ℚ) ≤ 1 - t.qty / q)
        linarith [key, hnn]
      · have h4 : 0 ≤ (cb₂ - cb₁) * (t.qty / q) :=
          mul_nonneg (by linarith) (div_nonneg htq.le hq.le)
        have key2 : (pl₁ + ((t.price - cb₁ / q) * t.qty - t.charges))
            - (pl₂ + ((t.price - cb₂ / q) * t.qty - t.charges))
            = (pl₁ - pl₂) + (cb₂ - cb₁) * (t.qty / q) := by ring
        linarith [key2, h4]

/-- A strictly larger cost basis and any later sell force a strictly smaller
realized profit, in an oversell-free replay. -/
theorem replay_pl_gap_first_sell (rest : List InvestmentTrade) :
    ∀ q cb₁ cb₂ pl : ℚ, noOversellB q rest = true → cb₁ < cb₂ →
      rest.any (fun t => t.ttype == TradeType.sell) = true →
      (replayFold ⟨q, cb₂, pl⟩ rest).pl < (replayFold ⟨q, cb₁, pl⟩ rest).pl := by
  induction rest with
  | nil => intro q cb₁ cb₂ pl _ _ hsell; simp at hsell
  | cons t rest ih =>
    intro q cb₁ cb₂ pl hnov hcb hsell
    by_cases hb : t.ttype = .buy
    · unfold noOversellB at hnov
      rw [if_pos hb] at hnov
      have hsell' : rest.any (fun t => t.ttype == TradeType.sell) = true := by
        rw [List.any_cons] at hsell
        rcases Bool.or_eq_true_iff.mp hsell with h | h
        · rw [hb] at h; exact absurd h (by decide)
        · exact h
      rw [replayFold_cons, replayFold_cons, replayStep_buy _ _ _ _ hb,
        replayStep_buy _ _ _ _ hb]
      exact ih (q + t.qty) _ _ _ hnov (by linarith) hsell'
    · unfold noOversellB at hnov
      rw [if_neg hb] at hnov
      simp only [Bool.and_eq_true, decide_eq_true_eq] at hnov
      obtain ⟨⟨htq, hle⟩, hnov'⟩ := hnov
      have hq : 0 < q := lt_of_lt_of_le htq hle
      rw [replayFold_cons, replayFold_cons, replayStep_sell _ _ _ _ hb hq,
        replayStep_sell _ _ _ _ hb hq]
      apply replay_pl_gap_mono rest (q - t.qty) _ _ _ _ hnov'
      · have h2 : t.qty / q ≤ 1 := (div_le_one hq).mpr hle
        have key : (cb₂ - cb₂ / q * t.qty) - (cb₁ - cb₁ / q * t.qty)
            = (cb₂ - cb₁) * (1 - t.qty / q) := by ring
        have hnn := mul_nonneg (by linarith : (0:ℚ) ≤ cb₂ - cb₁)
          (by linarith : (0:ℚ) ≤ 1 - t.qty / q)
        linarith [key, hnn]
      · have key3 : (pl + ((t.price - cb₁ / q) * t.qty - t.charges))
            - (pl + ((t.price - cb₂ / q) * t.qty - t.charges))
            = (cb₂ - cb₁) * (t.qty / q) := by ring
        have hpos : 0 < (cb₂ - cb₁) * (t.qty / q) :=
          mul_pos (by linarith) (div_pos htq hq)
        linarith [key3, hpos]

/-- Raising the first buy's price strictly lowers the replayed realized
P/L, when a later sell exists and no sell overdraws the position. -/
theorem replay_pl_strict (b : InvestmentTrade) (rest : List InvestmentTrade)
    (pLow pHigh : ℚ) (hbuy : b.ttype = .buy) (hq : 0 < b.qty)
    (hnov : noOversellB b.qty rest = true)
    (hsell : rest.any (fun t => t.ttype == TradeType.sell) = true)
    (hlt : pLow < pHigh) :
    (replayFold ⟨0, 0, 0⟩ ({ b with price := pHigh } :: rest)).pl
      < (replayFold ⟨0, 0, 0⟩ ({ b with price := pLow } :: rest)).pl := by
  rw [replayFold_cons, replayFold_cons,
    replayStep_buy _ _ _ { b with price := pHigh } hbuy,
    replayStep_buy _ _ _ { b with price := pLow } hbuy]
  simp only [zero_add]
  exact replay_pl_gap_first_sell rest b.qty _ _ 0 hnov
    (by nlinarith [mul_lt_mul_of_pos_left hlt hq]) hsell

/-- Claim C8, amended: when the earliest trade of a date-sorted history is
a buy with positive quantity, a later sell exists, and no sell overdraws
the running position, amending the earliest buy's price to a different
value always changes the replayed `totalRealizedPL` (the replay recomputes
every later sell's average-cost basis from scratch). -/
theorem replay_pl_changes_with_first_buy_price (b₀ : Investment)
    (b : InvestmentTrade) (rest : List InvestmentTrade) (p₂ : ℚ)
    (hbuy : b.ttype = .buy) (hq : 0 < b.qty) (hne : b.price ≠ p₂)
    (hsorted : List.Sorted tradeDateLe (b :: rest))
    (hnov : noOversellB b.qty rest = true)
    (hsell : rest.any (fun t => t.ttype == TradeType.sell) = true) :
    (deriveAsset b₀ (b :: rest)).totalRealizedPL
      ≠ (deriveAsset b₀ ({ b with price := p₂ } :: rest)).totalRealizedPL := by
  have hsorted2 : List.Sorted tradeDateLe ({ b with price := p₂ } :: rest) := by
    rw [List.sorted_cons] at hsorted ⊢
    exact ⟨fun t ht => hsorted.1 t ht, hsorted.2⟩
  rw [List.sorted_cons] at hsorted
  have hsorted1 : List.Sorted tradeDateLe (b :: rest) :=
    List.sorted_cons.mpr hsorted
  have h1 : (deriveAsset b₀ (b :: rest)).totalRealizedPL
      = (replayFold ⟨0, 0, 0⟩ (b :: rest)).pl := by
    show (replayFold ⟨0, 0, 0⟩ (sortTrades (b :: rest))).pl = _
    rw [show sortTrades (b :: rest) = b :: rest from hsorted1.insertionSort_eq]
  have h2 : (deriveAsset b₀ ({ b with price := p₂ } :: rest)).totalRealizedPL
      = (replayFold ⟨0, 0, 0⟩ ({ b with price := p₂ } :: rest)).pl := by
    show (replayFold ⟨0, 0, 0⟩ (sortTrades _)).pl = _
    rw [show sortTrades ({ b with price := p₂ } :: rest) = _ from hsorted2.insertionSort_eq]
  rw [h1, h2]
  have hb' : ({ b with price := b.price } : InvestmentTrade) = b := rfl
  rcases lt_trichotomy b.price p₂ with hlt | heq | hgt
  · have hstrict := replay_pl_strict b rest b.price p₂ hbuy hq hnov hsell hlt
    rw [hb'] at hstrict
    exact ne_of_gt hstrict
  · exact absurd heq hne
  · have hstrict := replay_pl_strict b rest p₂ b.price hbuy hq hnov hsell hgt
    rw [hb'] at hstrict
    exact ne_of_lt hstrict

/-- Witness for the amended claim C8 at a concrete buy-then-sell
history. -/
theorem replay_pl_changes_with_first_buy_price_witness :
    (deriveAsset baseAsset [w8Buy, w8Sell]).totalRealizedPL
      ≠ (deriveAsset baseAsset [{ w8Buy with price := 90 }, w8Sell]).totalRealizedPL :=
  replay_pl_changes_with_first_buy_price baseAsset w8Buy [w8Sell] 90 rfl
    (by with_unfolding_all decide) (by with_unfolding_all decide)
    (by with_unfolding_all decide) (by with_unfolding_all decide)
    (by with_unfolding_all decide)

/-- Witness for the amended claim C3 at concrete one- and two-trade
histories. -/
theorem replay_derived_state_invariants_witness :
    (0 ≤ (deriveAsset baseAsset [c8t1]).qty
      ∧ ((deriveAsset baseAsset [c8t1]).status = "closed"
          ↔ (deriveAsset baseAsset [c8t1]).qty = 0)
      ∧ ((deriveAsset baseAsset [c8t1]).qty = 0
          → (deriveAsset baseAsset [c8t1]).avgBuyPrice = 0))
    ∧ ((deriveAsset baseAsset ([c8t1] ++ [wSellAll])).qty = 0
      ∧ (deriveAsset baseAsset ([c8t1] ++ [wSellAll])).avgBuyPrice = 0
      ∧ (deriveAsset baseAsset ([c8t1] ++ [wSellAll])).status = "closed")
    ∧ (deriveAsset baseAsset ([c8t1, wSellAll] ++ [wBuyAgain])).status = "active" :=
  ⟨replay_derived_state_invariants.1 baseAsset [c8t1],
   replay_derived_state_invariants.2.1 baseAsset [c8t1] wSellAll rfl
     (by with_unfolding_all decide) (by with_unfolding_all decide),
   replay_derived_state_invariants.2.2 baseAsset [c8t1, wSellAll] wBuyAgain rfl
     (by with_unfolding_all decide) (by with_unfolding_all decide)⟩

/-- Witness for the amended claim C4: an oversell against a one-unit
holding is rejected with no state change. -/
theorem executeTradeIncr_oversell_strict_witness :
    executeTradeIncr c3State c3Asset c4IncrSell "5" = none :=
  executeTradeIncr_oversell_strict.1 c3State c3Asset c4IncrSell "5" rfl
    (by with_unfolding_all decide)

/-- Witness for claim C6 at a concrete sale recorded against a party. -/
theorem recordTransaction_party_delta_witness :
    (handleSave c6State c6Tx "t9").parties.find? (fun p => some p.id == c6Tx.partyId)
      = some { c6Party with currentBalance := c6Party.currentBalance +
          (match c6Tx.ttype with
           | .sale => c6Tx.amount
           | .purchase => -c6Tx.amount
           | .income => -c6Tx.amount
           | .expense => c6Tx.amount) } :=
  recordTransaction_party_delta c6State c6Tx "t9" rfl
    (by with_unfolding_all decide) c6Party (by with_unfolding_all decide)

/-- Witness for claim C7 at a concrete identical amendment. -/
theorem amend_identical_preserves_balances_witness :
    (handleSave c7State c7Tx "z").accounts = c7State.accounts
    ∧ (handleSave c7State c7Tx "z").parties = c7State.parties :=
  amend_identical_preserves_balances c7State c7Tx "z" (by decide)
    (by with_unfolding_all decide)

/-- Witness for claim C9 at a concrete mark-price update. -/
theorem handleUpdateMktPrice_frame_witness :
    (handleUpdateMktPrice baseState "gold" 42).accounts = baseState.accounts
    ∧ (handleUpdateMktPrice baseState "gold" 42).transactions = baseState.transactions :=
  ⟨(handleUpdateMktPrice_frame baseState "gold" 42 (by norm_num)).1,
   (handleUpdateMktPrice_frame baseState "gold" 42 (by norm_num)).2.2.1⟩

end Avin
